import Mathlib

/-!
# Verification of the Kawasaki backup client protocol engine

Shallow embedding of `src/kawasaki_backup_client.py`.  Bytes are modelled as
`Nat`, byte strings as `List Nat`.  The embedding covers:

* the record regex `DATA_REC_REGEX = (?:\x17)?\x05\x02D[^\r\n]*\r`
  (`matchPayload`, `matchRecAt`, `searchRec`),
* the streaming loop of `KawasakiBackupClient.run` (lines 209-235):
  buffer accumulation, record draining, CR-to-CRLF rewriting, progress
  reporting, and the end-of-transfer check (`drainGo`, `streamLoop`),
* the handshake waits `_recv_until` (lines 279-300) and the phase
  sequencing of `run` (`recvUntil`, `runSession`),
* the connect-retry loop (lines 150-163, `connectGo`),
* filename sanitization and the SAVE command bytes (lines 136-143).

Recursions that the Python code bounds by buffer consumption are written with
an explicit fuel argument equal to that bound, so every definition is a plain
structural recursion and evaluates by `decide` / `rfl`.
-/

/-- Substring test `needle` is a leading segment of `hay`
(used to embed Python `bytes.startswith` and literal regex search). -/
def listLeads : List Nat → List Nat → Bool
  | [], _ => true
  | _ :: _, [] => false
  | a :: as, b :: bs => a == b && listLeads as bs

/-- The test `containsSeq needle hay`: `needle` occurs contiguously inside `hay`.
Embeds Python `needle in hay` and `re.search` of an escaped literal. -/
def containsSeq (needle : List Nat) : List Nat → Bool
  | [] => listLeads needle []
  | h :: t => listLeads needle (h :: t) || containsSeq needle t

/-- ASCII bytes of a string (all protocol strings are ASCII). -/
def strB (s : String) : List Nat := s.toList.map Char.toNat

/-- Constant `EOT_MARKER = b'\x05\x02E\x17'` (line 15). -/
def EOT_MARKER : List Nat := [5, 2, 69, 23]

/-- Constant `SAVELOAD_IN_PROGRESS = re.compile(rb'SAVE/LOAD in progress')` (line 16):
a literal pattern, so its search is a substring test on these bytes. -/
def busyBytes : List Nat := strB "SAVE/LOAD in progress"

/-- Constant `START_HEADER = b'\x05\x02B'` (line 11). -/
def START_HEADER : List Nat := [5, 2, 66]

/-- Constant `DEFAULT_PROGRESS_INTERVAL = 10 * 1024` (line 19). -/
def DEFAULT_PROGRESS_INTERVAL : Nat := 10 * 1024

/-- Bytes of `b'login:'`, the login prompt pattern (line 171). -/
def loginBytes : List Nat := strB "login:"

/-- The search `re.search(rb'login:', buf)` as a Boolean. -/
def loginFound (buf : List Nat) : Bool := containsSeq loginBytes buf

/-- ASCII digit test, embedding the regex class `\d`. -/
def isDigitByte (b : Nat) : Bool := 48 ≤ b && b ≤ 57

/-- The search `re.search(rb'AUX\d', buf)` (line 177): the bytes `AUX` immediately
followed by a digit occur somewhere in `buf`. -/
def hasAux : List Nat → Bool
  | 65 :: 85 :: 88 :: d :: rest => isDigitByte d || hasAux (85 :: 88 :: d :: rest)
  | _ :: rest => hasAux rest
  | [] => false

/-- The backup-header marker `START_HEADER + safe_name + b'.' + b'as' + b'\x17'`
(lines 185-187); its regex is an escaped literal, so search is substring. -/
def headerBytes (safeName : List Nat) : List Nat :=
  START_HEADER ++ safeName ++ [46] ++ strB "as" ++ [23]

/-- The `combined` pattern of line 188: busy marker or header marker.  Both
alternatives are literals, so the search is a disjunction of substring tests. -/
def combinedFound (safeName buf : List Nat) : Bool :=
  containsSeq busyBytes buf || containsSeq (headerBytes safeName) buf

/-- Characters kept by `re.sub(r'[^A-Za-z0-9_.-]', '_', base_name)` (line 136). -/
def allowedNameByte (b : Nat) : Bool :=
  (65 ≤ b && b ≤ 90) || (97 ≤ b && b ≤ 122) || (48 ≤ b && b ≤ 57) ||
    b == 95 || b == 46 || b == 45

/-- Sanitization `safe_name = re.sub(r'[^A-Za-z0-9_.-]', '_', base_name)` (line 136). -/
def sanitize (base : List Nat) : List Nat :=
  base.map (fun b => if allowedNameByte b then b else 95)

/-- Command bytes of line 143:
(line 143). -/
def cmdBytes (full : Bool) (safeName : List Nat) : List Nat :=
  strB "SAVE" ++ (if full then strB "/Full" else []) ++ [32] ++ safeName ++ [13, 10]

/-!
## The record regex

`DATA_REC_REGEX = re.compile(rb'(?:\x17)?\x05\x02D[^\r\n]*\r')` (line 14).
A match at a position consists of an optional escape byte `\x17` (taken
greedily, and only usable when `\x05\x02D` follows it), the marker
`\x05\x02D`, then `[^\r\n]*\r`: the run of bytes up to the first CR or LF,
which must end at a CR.  `search` returns the leftmost match.
-/

/-- Match `[^\r\n]*\r` at the front of a byte list, returning the number of
bytes consumed.  Greedy `[^\r\n]*` followed by a mandatory `\r` succeeds
exactly when the first CR-or-LF byte exists and is a CR. -/
def matchPayload : List Nat → Option Nat
  | [] => none
  | b :: rest =>
    if b == 13 then some 1
    else if b == 10 then none
    else (matchPayload rest).map (· + 1)

/-- Match `DATA_REC_REGEX` anchored at the front of `l`, returning the match
length.  The escape branch is tried first (greedy `(?:\x17)?`); if `l` starts
with `\x17` but not with `\x17\x05\x02D`, the escape-less branch needs `\x05`
first and fails too, exactly as the backtracking engine does. -/
def matchRecAt : List Nat → Option Nat
  | 23 :: 5 :: 2 :: 68 :: rest => (matchPayload rest).map (· + 4)
  | 5 :: 2 :: 68 :: rest => (matchPayload rest).map (· + 3)
  | _ => none

/-- Search `DATA_REC_REGEX.search(buffer)`: leftmost match, as `(start, length)`. -/
def searchRec : List Nat → Option (Nat × Nat)
  | [] => none
  | b :: rest =>
    match matchRecAt (b :: rest) with
    | some k => some (0, k)
    | none => (searchRec rest).map (fun p => (p.1 + 1, p.2))

/-- Slicing `payload = rec[4:] if rec.startswith(b'\x17') else rec[3:]` (line 225). -/
def recPayload (rec : List Nat) : List Nat :=
  if rec.headI = 23 then rec.drop 4 else rec.drop 3

/-- Rewriting `if payload.endswith(b'\r'): payload = payload[:-1] + b'\r\n'` (lines 226-227). -/
def crlfFix (payload : List Nat) : List Nat :=
  if payload.getLast? = some 13 then payload.dropLast ++ [13, 10] else payload

/-!
## Progress reporting

Lines 230-232:
```
while total_written >= last_report + self.progress_interval:
    last_report += self.progress_interval
    self._emit_progress(last_report)
```
The loop runs `(total - last) / interval` times when `interval > 0`; the fuel
`total - last` dominates that count, so the structural version below agrees
with the Python loop whenever the interval is positive (for `interval = 0`
and `last ≤ total` the Python loop would not terminate at all).
-/

/-- One progress-drain loop: returns the emitted values (in order) and the
final `last_report`. -/
def progressGo (interval total : Nat) : Nat → Nat → List Nat × Nat
  | fuel, last =>
    if last + interval ≤ total then
      match fuel with
      | 0 => ([], last)
      | fuel' + 1 =>
        let r := progressGo interval total fuel' (last + interval)
        ((last + interval) :: r.1, r.2)
    else ([], last)

/-- The progress loop with its exact fuel bound. -/
def progressAdvance (interval total last : Nat) : List Nat × Nat :=
  progressGo interval total (total - last) last

/-!
## The streaming loop (lines 209-235)
-/

/-- State of one streaming loop: the parse buffer, the bytes written to the
output artifact, `total_written`, `last_report`, and the progress values
emitted so far. -/
structure StreamState where
  buffer : List Nat
  output : List Nat
  total_written : Nat
  last_report : Nat
  reports : List Nat
deriving DecidableEq

/-- State at `total_written = 0; last_report = 0; buffer = bytearray()`
(lines 206-208), with an empty output artifact. -/
def initState : StreamState := ⟨[], [], 0, 0, []⟩

/-- One inner-drain iteration of lines 220-233, given the leftmost match
`(s, k)`: slice out the matched record, decode its payload, write it, advance
the progress counters, and delete `buffer[:m.end()]` (everything up to and
including the match). -/
def consumeMatch (interval : Nat) (st : StreamState) (s k : Nat) : StreamState :=
  let recBytes := (st.buffer.drop s).take k
  let payload := crlfFix (recPayload recBytes)
  let total' := st.total_written + payload.length
  let pr := progressAdvance interval total' st.last_report
  { buffer := st.buffer.drop (s + k)
    output := st.output ++ payload
    total_written := total'
    last_report := pr.2
    reports := st.reports ++ pr.1 }

/-- The inner `while True` drain of lines 220-233.  Every iteration deletes at
least one byte of the buffer (a match is nonempty), so the buffer length is
enough fuel. -/
def drainGo (interval : Nat) : Nat → StreamState → StreamState
  | fuel, st =>
    match searchRec st.buffer with
    | none => st
    | some (s, k) =>
      match fuel with
      | 0 => st
      | fuel' + 1 => drainGo interval fuel' (consumeMatch interval st s k)

/-- Drain the buffer of all complete records. -/
def drainBuffer (interval : Nat) (st : StreamState) : StreamState :=
  drainGo interval st.buffer.length st

/-- One outer iteration after a chunk arrived: `buffer.extend(chunk)` then
drain (extending by the empty chunk is the identity, matching the
`if chunk:` guard of line 216). -/
def stepChunk (interval : Nat) (st : StreamState) (chunk : List Nat) : StreamState :=
  drainBuffer interval { st with buffer := st.buffer ++ chunk }

/-- What one transport read of the engine produced: a timeout (`socket.timeout`),
an I/O error (any other exception, uncaught), or data.  A zero-length `data`
read is a closed connection. -/
inductive ReadEvent where
  | timeout
  | ioError
  | data (chunk : List Nat)
deriving DecidableEq

/-- The chunk the streaming loop works with after lines 212-215: a timeout is
converted to the empty chunk; data is passed through. -/
def eventChunk : ReadEvent → List Nat
  | .data c => c
  | _ => []

/-- Outcome of the streaming loop over a finite schedule of reads.  `pending`
means the schedule ran out while the loop would keep reading. -/
inductive StreamOutcome where
  | finished (st : StreamState)
  | cancelled (st : StreamState)
  | ioFailed (st : StreamState)
  | pending (st : StreamState)
deriving DecidableEq

/-- The state an outcome carries. -/
def outcomeState : StreamOutcome → StreamState
  | .finished st => st
  | .cancelled st => st
  | .ioFailed st => st
  | .pending st => st

/-- The `while True` loop of lines 209-235.  Each schedule entry is the
cancellation flag observed at the top of the iteration (line 210) paired with
the read result (lines 212-215); after draining, the loop stops successfully
iff `EOT_MARKER in buffer` (line 234). -/
def streamLoop (interval : Nat) (st : StreamState) :
    List (Bool × ReadEvent) → StreamOutcome
  | [] => .pending st
  | (cancel, ev) :: rest =>
    if cancel then .cancelled st
    else
      match ev with
      | .ioError => .ioFailed st
      | _ =>
        let st' := stepChunk interval st (eventChunk ev)
        if containsSeq EOT_MARKER st'.buffer then .finished st'
        else streamLoop interval st' rest

/-!
## Well-formed record streams (for the functional-correctness claims)
-/

/-- A payload is a run of non-CR non-LF bytes (the `[^\r\n]*` class). -/
def payloadOk (p : List Nat) : Bool := p.all (fun b => b ≠ 13 && b ≠ 10)

/-- A well-formed record: optional escape byte, marker `\x05\x02D`, payload,
terminating CR.  A record is given as `(escape?, payload)`. -/
def encodeRec (r : Bool × List Nat) : List Nat :=
  (if r.1 then [23] else []) ++ [5, 2, 68] ++ r.2 ++ [13]

/-- All records of a stream are well formed. -/
def recsOk (recs : List (Bool × List Nat)) : Bool := recs.all (fun r => payloadOk r.2)

/-- The encoded record section of a stream. -/
def encodeAll (recs : List (Bool × List Nat)) : List Nat := (recs.map encodeRec).flatten

/-- A full well-formed transport stream: records then the end marker. -/
def streamOf (recs : List (Bool × List Nat)) : List Nat := encodeAll recs ++ EOT_MARKER

/-- The decoded form of one record: payload with its CR replaced by CRLF. -/
def decodeRec (r : Bool × List Nat) : List Nat := r.2 ++ [13, 10]

/-- Concatenation of all decoded payloads, in arrival order. -/
def decodeAll (recs : List (Bool × List Nat)) : List Nat := (recs.map decodeRec).flatten

/-- Spec-level progress/total bookkeeping for a sequence of decoded payload
writes: what `(total_written, last_report, reports)` become after writing each
payload in turn. -/
def foldRecs (interval : Nat) : List (List Nat) → Nat × Nat × List Nat → Nat × Nat × List Nat
  | [], acc => acc
  | p :: rest, (tot, last, reps) =>
    let tot' := tot + p.length
    let pr := progressAdvance interval tot' last
    foldRecs interval rest (tot', pr.2, reps ++ pr.1)

/-!
## Handshake waits (`_recv_until`, lines 279-300) and session sequencing
-/

/-- Outcome of `_recv_until`: the loop returns its accumulated buffer when the
pattern is found or when a read comes back empty (`if not chunk: break`,
line 296-297); a `socket.timeout` or any other I/O error is uncaught and
propagates (`timedOut` / `ioErr`); `starved` marks the schedule running out
while the loop would keep reading. -/
inductive RecvOutcome where
  | ok (buf : List Nat)
  | timedOut (buf : List Nat)
  | ioErr (buf : List Nat)
  | starved (buf : List Nat)
deriving DecidableEq

/-- The wait `_recv_until` (lines 279-300): while the pattern does not match the
accumulated buffer, read; an empty read breaks and returns the buffer as is;
the pattern is checked before the first read. -/
def recvUntil (found : List Nat → Bool) : List Nat → List ReadEvent → RecvOutcome
  | buf, [] => if found buf then .ok buf else .starved buf
  | buf, ev :: rest =>
    if found buf then .ok buf
    else
      match ev with
      | .timeout => .timedOut buf
      | .ioError => .ioErr buf
      | .data c =>
        if c.isEmpty then .ok buf else recvUntil found (buf ++ c) rest

/-- The transport schedule of one session: the reads served to each of the
three handshake waits (login prompt, AUX prompt, header-or-busy) and to the
streaming loop. -/
structure SessionInput where
  loginEvents : List ReadEvent
  auxEvents : List ReadEvent
  headerEvents : List ReadEvent
  streamEvents : List (Bool × ReadEvent)
deriving DecidableEq

/-- How a session run ends.  `handshakeTimeout p` / `transportError p`: the
wait of phase `p` (1 = login, 2 = AUX, 3 = header) raised; `deviceBusy`: the
busy marker was found in the header buffer (lines 195-198); the remaining
constructors mirror `StreamOutcome`. -/
inductive SessionResult where
  | handshakeTimeout (phase : Nat)
  | transportError (phase : Nat)
  | starvedInput
  | deviceBusy
  | cancelled
  | streamIOError
  | completed (output : List Nat) (total : Nat) (reports : List Nat)
deriving DecidableEq

/-- The phases of `run` after a successful connect (lines 165-238), paired
with the bytes written to the output artifact when the session ends.  The
login and AUX buffers are discarded by the code; only the header buffer is
inspected (for the busy marker) before streaming starts. -/
def runSession (interval : Nat) (safeName : List Nat) (inp : SessionInput) :
    SessionResult × List Nat :=
  match recvUntil loginFound [] inp.loginEvents with
  | .timedOut _ => (.handshakeTimeout 1, [])
  | .ioErr _ => (.transportError 1, [])
  | .starved _ => (.starvedInput, [])
  | .ok _ =>
    match recvUntil hasAux [] inp.auxEvents with
    | .timedOut _ => (.handshakeTimeout 2, [])
    | .ioErr _ => (.transportError 2, [])
    | .starved _ => (.starvedInput, [])
    | .ok _ =>
      match recvUntil (combinedFound safeName) [] inp.headerEvents with
      | .timedOut _ => (.handshakeTimeout 3, [])
      | .ioErr _ => (.transportError 3, [])
      | .starved _ => (.starvedInput, [])
      | .ok buf =>
        if containsSeq busyBytes buf then (.deviceBusy, [])
        else
          match streamLoop interval initState inp.streamEvents with
          | .finished st => (.completed st.output st.total_written st.reports, st.output)
          | .cancelled st => (.cancelled, st.output)
          | .ioFailed st => (.streamIOError, st.output)
          | .pending st => (.starvedInput, st.output)

/-!
## Connection retry loop (lines 150-163)
-/

/-- How the connect loop ends: a successful attempt, the final attempt
failing (the exception is re-raised), or — for `connect_retries = 0` — the
loop body never running at all. -/
inductive ConnectResult where
  | connected (attempt : Nat)
  | failed (attempt : Nat)
  | skipped
deriving DecidableEq

/-- Notifications and outcome of the connect loop: `attempts` lists the
attempt numbers announced by the per-attempt status message (line 153), in
order; `retryNotices` counts the "Connect failed, retrying" messages
(line 159). -/
structure ConnectTrace where
  result : ConnectResult
  attempts : List Nat
  retryNotices : Nat
deriving DecidableEq

/-- The loop `for attempt in range(1, self.connect_retries + 1)` (lines 151-163),
driven by an oracle `ok` telling which attempt numbers succeed.  The fuel is
the number of remaining loop indices. -/
def connectGo (ok : Nat → Bool) (retries : Nat) : Nat → Nat → ConnectTrace
  | 0, _ => ⟨.skipped, [], 0⟩
  | fuel + 1, attempt =>
    if ok attempt then ⟨.connected attempt, [attempt], 0⟩
    else if attempt < retries then
      let t := connectGo ok retries fuel (attempt + 1)
      ⟨t.result, attempt :: t.attempts, t.retryNotices + 1⟩
    else ⟨.failed attempt, [attempt], 0⟩

/-- The whole connect loop, starting at attempt 1 with `retries` indices. -/
def connectRun (ok : Nat → Bool) (retries : Nat) : ConnectTrace :=
  connectGo ok retries retries 1

/-- Invariant of the streaming state tying `last_report`, the emitted
progress values, `total_written` and the output length together (for a fixed
positive progress interval). -/
def stOK (interval : Nat) (st : StreamState) : Prop :=
  st.last_report = interval * st.reports.length ∧
  st.reports = (List.range st.reports.length).map (fun j => interval * (j + 1)) ∧
  st.last_report ≤ st.total_written ∧
  st.total_written < st.last_report + interval ∧
  st.total_written = st.output.length

/-!
## Lemmas about the substring test and the record regex
-/

theorem containsSeq_append_left (n s t : List Nat) (h : containsSeq n t = true) :
    containsSeq n (s ++ t) = true := by
  induction s with
  | nil => simpa using h
  | cons a s ih => simp [containsSeq, ih]

theorem matchPayload_mem_cr {l : List Nat} {k : Nat} (h : matchPayload l = some k) :
    13 ∈ l := by
  induction l generalizing k with
  | nil => simp [matchPayload] at h
  | cons b rest ih =>
    by_cases hb : b = 13
    · simp [hb]
    · rw [matchPayload] at h
      by_cases hb10 : b = 10
      · simp [hb, hb10] at h
      · simp [hb, hb10] at h
        obtain ⟨k', hk', _⟩ := h
        exact List.mem_cons_of_mem _ (ih hk')

theorem matchRecAt_mem_cr {l : List Nat} {k : Nat} (h : matchRecAt l = some k) :
    13 ∈ l := by
  match l, h with
  | 23 :: 5 :: 2 :: 68 :: rest, h =>
    rw [matchRecAt] at h
    simp at h
    obtain ⟨k', hk', _⟩ := h
    simp [matchPayload_mem_cr hk']
  | 5 :: 2 :: 68 :: rest, h =>
    rw [matchRecAt] at h
    simp at h
    obtain ⟨k', hk', _⟩ := h
    simp [matchPayload_mem_cr hk']

theorem searchRec_mem_cr {l : List Nat} {p : Nat × Nat} (h : searchRec l = some p) :
    13 ∈ l := by
  induction l generalizing p with
  | nil => simp [searchRec] at h
  | cons b rest ih =>
    rw [searchRec] at h
    cases hm : matchRecAt (b :: rest) with
    | some k => exact matchRecAt_mem_cr hm
    | none =>
      rw [hm] at h
      simp at h
      obtain ⟨a, b, hq, -⟩ := h
      exact List.mem_cons_of_mem _ (ih hq)

/-- A buffer with no carriage return has no record match. -/
theorem searchRec_eq_none_of_no_cr {l : List Nat} (h : 13 ∉ l) :
    searchRec l = none := by
  cases hs : searchRec l with
  | none => rfl
  | some p => exact absurd (searchRec_mem_cr hs) h

/-- Matching `[^\r\n]*\r` at the front of a clean payload followed by CR consumes the
payload and the CR, whatever follows. -/
theorem matchPayload_clean (p : List Nat) (hp : payloadOk p = true) (rest : List Nat) :
    matchPayload (p ++ 13 :: rest) = some (p.length + 1) := by
  induction p with
  | nil => simp [matchPayload]
  | cons b q ih =>
    simp only [payloadOk, List.all_cons, Bool.and_eq_true] at hp
    obtain ⟨hb, hq⟩ := hp
    simp only [Bool.and_eq_true, decide_eq_true_eq] at hb
    have := ih (by simpa [payloadOk] using hq)
    simp [matchPayload, hb.1, hb.2, this]

/-- The record regex matches a well-formed record at its front, consuming
exactly the record. -/
theorem matchRecAt_encode (e : Bool) (p : List Nat) (hp : payloadOk p = true)
    (rest : List Nat) :
    matchRecAt (encodeRec (e, p) ++ rest) = some (encodeRec (e, p)).length := by
  cases e with
  | true =>
    have : encodeRec (true, p) ++ rest = 23 :: 5 :: 2 :: 68 :: (p ++ 13 :: rest) := by
      simp [encodeRec]
    rw [this, matchRecAt, matchPayload_clean p hp rest]
    simp [encodeRec]
  | false =>
    have : encodeRec (false, p) ++ rest = 5 :: 2 :: 68 :: (p ++ 13 :: rest) := by
      simp [encodeRec]
    rw [this, matchRecAt, matchPayload_clean p hp rest]
    simp [encodeRec]

/-- The search finds a well-formed record at the front of the buffer as the
leftmost match. -/
theorem searchRec_encode (r : Bool × List Nat) (hp : payloadOk r.2 = true)
    (rest : List Nat) :
    searchRec (encodeRec r ++ rest) = some (0, (encodeRec r).length) := by
  obtain ⟨e, p⟩ := r
  have hm := matchRecAt_encode e p hp rest
  cases e with
  | true =>
    have : encodeRec (true, p) ++ rest = 23 :: (5 :: 2 :: 68 :: (p ++ 13 :: rest)) := by
      simp [encodeRec]
    rw [this] at hm ⊢
    rw [searchRec, hm]
  | false =>
    have : encodeRec (false, p) ++ rest = 5 :: (2 :: 68 :: (p ++ 13 :: rest)) := by
      simp [encodeRec]
    rw [this] at hm ⊢
    rw [searchRec, hm]

/-- Decoding a well-formed record: the slice after the marker is the payload
plus CR, and the CR is rewritten to CRLF. -/
theorem decode_encodeRec (e : Bool) (p : List Nat) :
    crlfFix (recPayload (encodeRec (e, p))) = p ++ [13, 10] := by
  have hpay : recPayload (encodeRec (e, p)) = p ++ [13] := by
    cases e with
    | true =>
      have h23 : encodeRec (true, p) = 23 :: 5 :: 2 :: 68 :: (p ++ [13]) := by
        simp [encodeRec]
      rw [h23]
      simp [recPayload]
    | false =>
      have h5 : encodeRec (false, p) = 5 :: 2 :: 68 :: (p ++ [13]) := by
        simp [encodeRec]
      rw [h5]
      simp [recPayload]
  rw [hpay, crlfFix]
  simp

/-- A record is never empty and never shorter than four bytes. -/
theorem encodeRec_length (r : Bool × List Nat) :
    (encodeRec r).length = (if r.1 then 1 else 0) + r.2.length + 4 := by
  obtain ⟨e, p⟩ := r
  cases e <;> simp [encodeRec] <;> omega

/-- The bytes of a record other than its final CR are never CR
(payload bytes are non-CR by well-formedness, marker bytes by value). -/
theorem encodeRec_no_cr_take (r : Bool × List Nat) (hp : payloadOk r.2 = true)
    (i : Nat) (hi : i < (encodeRec r).length) :
    13 ∉ (encodeRec r).take i := by
  obtain ⟨e, p⟩ := r
  intro hmem
  have hbody : encodeRec (e, p) = ((if e then [23] else []) ++ [5, 2, 68] ++ p) ++ [13] := by
    simp [encodeRec]
  have hlen : i ≤ ((if e then [23] else []) ++ [5, 2, 68] ++ p).length := by
    have := encodeRec_length (e, p)
    cases e <;> simp at this ⊢ <;> omega
  rw [hbody, List.take_append_of_le_length hlen] at hmem
  have hmem' : 13 ∈ (if e then [23] else []) ++ [5, 2, 68] ++ p :=
    List.mem_of_mem_take hmem
  have hnp : (13 : Nat) ∉ p := by
    intro hc
    have := List.all_eq_true.mp hp 13 hc
    simp at this
  rcases List.mem_append.mp hmem' with hml | hmp
  · rcases List.mem_append.mp hml with hm1 | hm2
    · cases e <;> simp at hm1
    · simp at hm2
  · exact hnp hmp

/-!
## The progress loop
-/

/-- Full characterization of the progress loop: with enough fuel and a
positive interval it emits the next `(total - last) / interval` multiples of
the interval and advances `last_report` to the largest one (or keeps it). -/
theorem progressGo_spec (interval total : Nat) (hi : 0 < interval) :
    ∀ fuel last, total - last ≤ fuel →
      progressGo interval total fuel last =
        (((List.range ((total - last) / interval)).map fun j => last + interval * (j + 1)),
         last + interval * ((total - last) / interval)) := by
  intro fuel
  induction fuel with
  | zero =>
    intro last hf
    have hle : total ≤ last := by omega
    have hc : ¬ (last + interval ≤ total) := by omega
    have h0 : total - last = 0 := by omega
    rw [progressGo]
    simp [hc, h0]
  | succ fuel ih =>
    intro last hf
    by_cases hc : last + interval ≤ total
    · have hkey : progressGo interval total (fuel + 1) last =
          ((last + interval) :: (progressGo interval total fuel (last + interval)).1,
           (progressGo interval total fuel (last + interval)).2) := by
        rw [progressGo]
        simp [hc]
      have hfuel' : total - (last + interval) ≤ fuel := by omega
      have hn : (total - last) / interval = (total - (last + interval)) / interval + 1 := by
        have ha : total - last = (total - (last + interval)) + interval := by omega
        rw [ha, Nat.add_div_right _ hi]
      rw [hkey, ih (last + interval) hfuel', hn, List.range_succ_eq_map]
      refine Prod.ext ?_ ?_
      · simp only [List.map_cons, List.map_map]
        refine congrArg₂ (· :: ·) (by ring) ?_
        refine List.map_congr_left ?_
        intro j hj
        simp [Function.comp]
        ring
      · simp
        ring
    · have h0 : (total - last) / interval = 0 := Nat.div_eq_of_lt (by omega)
      rw [progressGo]
      simp [hc, h0]

/-- The progress step as run by the code (fuel `total - last` always
suffices). -/
theorem progressAdvance_spec (interval total last : Nat) (hi : 0 < interval) :
    progressAdvance interval total last =
      (((List.range ((total - last) / interval)).map fun j => last + interval * (j + 1)),
       last + interval * ((total - last) / interval)) :=
  progressGo_spec interval total hi (total - last) last le_rfl

/-- Every value emitted by one progress step exceeds the previous
`last_report` and never exceeds the `total_written` current at emission. -/
theorem progressAdvance_mem (interval total last r : Nat) (hi : 0 < interval)
    (h : r ∈ (progressAdvance interval total last).1) : last < r ∧ r ≤ total := by
  rw [progressAdvance_spec interval total last hi] at h
  simp only [List.mem_map, List.mem_range] at h
  obtain ⟨j, hj, rfl⟩ := h
  have hpos : 1 ≤ interval * (j + 1) := Nat.one_le_iff_ne_zero.mpr (by positivity)
  have hmono : interval * (j + 1) ≤ interval * ((total - last) / interval) :=
    Nat.mul_le_mul_left interval (by omega)
  have hdm := Nat.div_add_mod (total - last) interval
  constructor
  · omega
  · omega

/-- Where one progress step leaves `last_report`. -/
theorem progressAdvance_last (interval total last : Nat) (hi : 0 < interval) :
    (progressAdvance interval total last).2 =
        last + interval * ((total - last) / interval) ∧
      (last ≤ total → (progressAdvance interval total last).2 ≤ total) ∧
      total < (progressAdvance interval total last).2 + interval ∧
      last ≤ (progressAdvance interval total last).2 := by
  rw [progressAdvance_spec interval total last hi]
  have hdm := Nat.div_add_mod (total - last) interval
  have hmod := Nat.mod_lt (total - last) hi
  refine ⟨rfl, ?_, ?_, ?_⟩ <;> simp <;> omega

/-!
## Invariants of the streaming state
-/

theorem stOK_init (interval : Nat) (hi : 0 < interval) : stOK interval initState := by
  refine ⟨by simp [initState], by simp [initState], by simp [initState],
    by simp [initState]; omega, by simp [initState]⟩

theorem stOK_consume (interval : Nat) (hi : 0 < interval) (st : StreamState)
    (s k : Nat) (h : stOK interval st) :
    stOK interval (consumeMatch interval st s k) := by
  obtain ⟨h1, h2, h3, h4, h5⟩ := h
  unfold consumeMatch stOK
  dsimp only
  set payload := crlfFix (recPayload ((st.buffer.drop s).take k)) with hpay
  set total' := st.total_written + payload.length with htot
  have hlt : st.last_report ≤ total' := by omega
  have hadv := progressAdvance_last interval total' st.last_report hi
  have hspec := progressAdvance_spec interval total' st.last_report hi
  have hlen1 : (progressAdvance interval total' st.last_report).1.length =
      (total' - st.last_report) / interval := by rw [hspec]; simp
  refine ⟨?_, ?_, hadv.2.1 hlt, hadv.2.2.1, by rw [htot, h5, List.length_append]⟩
  · rw [hadv.1, List.length_append, hlen1, h1]; ring
  · rw [List.length_append, hlen1, List.range_add, List.map_append, List.map_map]
    refine congrArg₂ (· ++ ·) ?_ ?_
    · rw [← h2]
    · rw [hspec]
      refine List.map_congr_left ?_
      intro j hj
      simp only [Function.comp_apply]
      rw [h1]; ring

theorem stOK_drainGo (interval : Nat) (hi : 0 < interval) :
    ∀ (fuel : Nat) (st : StreamState), stOK interval st →
      stOK interval (drainGo interval fuel st) := by
  intro fuel
  induction fuel with
  | zero =>
    intro st h
    rw [drainGo]
    cases searchRec st.buffer with
    | none => exact h
    | some p => cases p with | mk s k => exact h
  | succ fuel ih =>
    intro st h
    rw [drainGo]
    cases searchRec st.buffer with
    | none => exact h
    | some p =>
      cases p with
      | mk s k => exact ih _ (stOK_consume interval hi st s k h)

theorem stOK_stepChunk (interval : Nat) (hi : 0 < interval) (st : StreamState)
    (c : List Nat) (h : stOK interval st) : stOK interval (stepChunk interval st c) :=
  stOK_drainGo interval hi _ _ h

theorem stOK_streamLoop (interval : Nat) (hi : 0 < interval) :
    ∀ (events : List (Bool × ReadEvent)) (st : StreamState), stOK interval st →
      stOK interval (outcomeState (streamLoop interval st events)) := by
  intro events
  induction events with
  | nil => intro st h; exact h
  | cons ce rest ih =>
    intro st h
    obtain ⟨cancel, ev⟩ := ce
    have hstep : ∀ c : List Nat,
        stOK interval (outcomeState
          (if containsSeq EOT_MARKER (stepChunk interval st c).buffer then
            StreamOutcome.finished (stepChunk interval st c)
          else streamLoop interval (stepChunk interval st c) rest)) := by
      intro c
      split
      · exact stOK_stepChunk interval hi st c h
      · exact ih _ (stOK_stepChunk interval hi st c h)
    cases cancel with
    | true => simpa [streamLoop, outcomeState] using h
    | false =>
      cases ev with
      | ioError => simpa [streamLoop, outcomeState] using h
      | timeout => simpa [streamLoop, eventChunk] using hstep []
      | data c => simpa [streamLoop, eventChunk] using hstep c

/-- With a positive interval, a streaming state satisfying the invariant has
emitted exactly `total_written / interval` progress values. -/
theorem stOK_report_count (interval : Nat) (st : StreamState) (hi : 0 < interval)
    (h : stOK interval st) : st.reports.length = st.total_written / interval := by
  obtain ⟨h1, h2, h3, h4, h5⟩ := h
  have hlow : interval * st.reports.length ≤ st.total_written := h1 ▸ h3
  have hup : st.total_written < interval * st.reports.length + interval := h1 ▸ h4
  have ha : st.reports.length ≤ st.total_written / interval :=
    (Nat.le_div_iff_mul_le hi).mpr (by rw [Nat.mul_comm]; exact hlow)
  have hb : st.total_written / interval < st.reports.length + 1 :=
    (Nat.div_lt_iff_lt_mul hi).mpr
      (by rw [Nat.add_mul, Nat.one_mul, Nat.mul_comm]; exact hup)
  omega

/-!
## Draining a buffer of well-formed records
-/

theorem decode_encodeRec_pair (r : Bool × List Nat) :
    crlfFix (recPayload (encodeRec r)) = decodeRec r := by
  obtain ⟨e, p⟩ := r
  exact decode_encodeRec e p

theorem foldRecs_total (interval : Nat) :
    ∀ (ps : List (List Nat)) (tot last : Nat) (reps : List Nat),
      (foldRecs interval ps (tot, last, reps)).1 = tot + ps.flatten.length := by
  intro ps
  induction ps with
  | nil => intro tot last reps; simp [foldRecs]
  | cons p rest ih =>
    intro tot last reps
    rw [foldRecs]
    rw [ih]
    simp
    omega

theorem foldRecs_append (interval : Nat) :
    ∀ (ps qs : List (List Nat)) (acc : Nat × Nat × List Nat),
      foldRecs interval (ps ++ qs) acc =
        foldRecs interval qs (foldRecs interval ps acc) := by
  intro ps
  induction ps with
  | nil => intro qs acc; simp [foldRecs]
  | cons p rest ih =>
    intro qs acc
    obtain ⟨tot, last, reps⟩ := acc
    rw [List.cons_append, foldRecs, foldRecs]
    exact ih qs _

/-- Draining a buffer that consists of well-formed records followed by a
CR-free remainder consumes exactly the records, in order, appending their
decoded payloads to the output and advancing the progress state per record. -/
theorem drainGo_wellformed (interval : Nat) :
    ∀ (recs : List (Bool × List Nat)) (tail out : List Nat) (tot last : Nat)
      (reps : List Nat) (fuel : Nat),
      recsOk recs = true → (∀ b ∈ tail, b ≠ 13) →
      (encodeAll recs ++ tail).length ≤ fuel →
      drainGo interval fuel ⟨encodeAll recs ++ tail, out, tot, last, reps⟩ =
        ⟨tail, out ++ decodeAll recs,
         (foldRecs interval (recs.map decodeRec) (tot, last, reps)).1,
         (foldRecs interval (recs.map decodeRec) (tot, last, reps)).2.1,
         (foldRecs interval (recs.map decodeRec) (tot, last, reps)).2.2⟩ := by
  intro recs
  induction recs with
  | nil =>
    intro tail out tot last reps fuel hok htail hfuel
    have hnone : searchRec ([] ++ tail) = none := by
      rw [List.nil_append]
      exact searchRec_eq_none_of_no_cr (fun hmem => htail 13 hmem rfl)
    have : encodeAll [] = [] := by simp [encodeAll]
    rw [this]
    rw [drainGo]
    dsimp only
    rw [hnone]
    simp [decodeAll, foldRecs]
  | cons r rs ih =>
    intro tail out tot last reps fuel hok htail hfuel
    have hr : payloadOk r.2 = true := by
      simp [recsOk, List.all_cons] at hok
      exact hok.1
    have hrs : recsOk rs = true := by
      simp [recsOk, List.all_cons] at hok
      simpa [recsOk] using hok.2
    have hbuf : encodeAll (r :: rs) ++ tail = encodeRec r ++ (encodeAll rs ++ tail) := by
      simp [encodeAll]
    have hK4 : 4 ≤ (encodeRec r).length := by
      rw [encodeRec_length]; omega
    have hlenbuf : (encodeAll (r :: rs) ++ tail).length =
        (encodeRec r).length + (encodeAll rs ++ tail).length := by
      rw [hbuf, List.length_append]
    match fuel with
    | 0 => omega
    | fuel + 1 =>
      rw [hbuf, drainGo]
      dsimp only
      rw [searchRec_encode r hr (encodeAll rs ++ tail)]
      have hcm : consumeMatch interval
          ⟨encodeRec r ++ (encodeAll rs ++ tail), out, tot, last, reps⟩ 0
            (encodeRec r).length =
          ⟨encodeAll rs ++ tail, out ++ decodeRec r, tot + (decodeRec r).length,
           (progressAdvance interval (tot + (decodeRec r).length) last).2,
           reps ++ (progressAdvance interval (tot + (decodeRec r).length) last).1⟩ := by
        unfold consumeMatch
        dsimp only
        rw [List.drop_zero, List.take_left, Nat.zero_add, List.drop_left,
          decode_encodeRec_pair]
      show drainGo interval fuel
          (consumeMatch interval
            ⟨encodeRec r ++ (encodeAll rs ++ tail), out, tot, last, reps⟩ 0
              (encodeRec r).length) = _
      rw [hcm]
      have hfuel' : (encodeAll rs ++ tail).length ≤ fuel := by omega
      rw [ih tail (out ++ decodeRec r) (tot + (decodeRec r).length)
        (progressAdvance interval (tot + (decodeRec r).length) last).2
        (reps ++ (progressAdvance interval (tot + (decodeRec r).length) last).1)
        fuel hrs htail hfuel']
      have hfold : foldRecs interval ((r :: rs).map decodeRec) (tot, last, reps) =
          foldRecs interval (rs.map decodeRec)
            (tot + (decodeRec r).length,
             (progressAdvance interval (tot + (decodeRec r).length) last).2,
             reps ++ (progressAdvance interval (tot + (decodeRec r).length) last).1) := by
        rw [List.map_cons, foldRecs]
      rw [hfold]
      simp [decodeAll]

/-!
## Claim C1
-/

theorem stepChunk_wellformed (interval : Nat) (recs : List (Bool × List Nat))
    (h : recsOk recs = true) :
    stepChunk interval initState (streamOf recs) =
      ⟨EOT_MARKER, decodeAll recs,
       (foldRecs interval (recs.map decodeRec) (0, 0, [])).1,
       (foldRecs interval (recs.map decodeRec) (0, 0, [])).2.1,
       (foldRecs interval (recs.map decodeRec) (0, 0, [])).2.2⟩ := by
  have htail : ∀ b ∈ EOT_MARKER, b ≠ 13 := by decide
  show drainBuffer interval ⟨[] ++ streamOf recs, [], 0, 0, []⟩ = _
  rw [drainBuffer]
  dsimp only
  rw [List.nil_append]
  exact drainGo_wellformed interval recs EOT_MARKER [] 0 0 [] _ h htail le_rfl

/-- C1: for every stream of well-formed records followed by the
end-of-transfer marker, the run loop writes exactly the concatenation of the
decoded payloads (each trailing CR replaced by CRLF) in arrival order, and
the final `total_written` equals the output artifact's length. -/
theorem c1_stream_output (interval : Nat) (recs : List (Bool × List Nat))
    (h : recsOk recs = true) :
    ∃ st : StreamState,
      streamLoop interval initState [(false, ReadEvent.data (streamOf recs))] =
        StreamOutcome.finished st ∧
      st.output = decodeAll recs ∧
      st.total_written = st.output.length := by
  refine ⟨⟨EOT_MARKER, decodeAll recs,
    (foldRecs interval (recs.map decodeRec) (0, 0, [])).1,
    (foldRecs interval (recs.map decodeRec) (0, 0, [])).2.1,
    (foldRecs interval (recs.map decodeRec) (0, 0, [])).2.2⟩, ?_, rfl, ?_⟩
  · rw [streamLoop]
    simp only [Bool.false_eq_true, if_false, eventChunk]
    rw [stepChunk_wellformed interval recs h]
    simp [show containsSeq EOT_MARKER EOT_MARKER = true from by decide]
    intro hc
    cases hc
  · show (foldRecs interval (recs.map decodeRec) (0, 0, [])).1 = (decodeAll recs).length
    rw [foldRecs_total]
    simp [decodeAll]

/-- Witness for C1 at a concrete two-record stream (one record with the
escape prefix) and interval 3. -/
theorem c1_stream_output_witness :
    recsOk [(false, [104, 105]), (true, [119, 111])] = true ∧
    ∃ st : StreamState,
      streamLoop 3 initState
          [(false, ReadEvent.data (streamOf [(false, [104, 105]), (true, [119, 111])]))] =
        StreamOutcome.finished st ∧
      st.output = decodeAll [(false, [104, 105]), (true, [119, 111])] ∧
      st.total_written = st.output.length :=
  ⟨by decide, c1_stream_output 3 _ (by decide)⟩

/-!
## Claim C7
-/

/-- C7: over any run of the streaming loop with a positive configured
interval, the emitted progress values are exactly the first
`total_written / interval` positive multiples of the interval, in strictly
increasing order, each a multiple of the interval not exceeding the final
`total_written`; moreover each value is emitted only when the current
`total_written` has already reached it. -/
theorem c7_progress_reports (interval : Nat) (events : List (Bool × ReadEvent))
    (hi : 0 < interval) :
    (outcomeState (streamLoop interval initState events)).reports =
        (List.range ((outcomeState (streamLoop interval initState events)).total_written /
          interval)).map (fun j => interval * (j + 1)) ∧
      List.Chain' (· < ·) (outcomeState (streamLoop interval initState events)).reports ∧
      (∀ r ∈ (outcomeState (streamLoop interval initState events)).reports,
        0 < r ∧ r % interval = 0 ∧
          r ≤ (outcomeState (streamLoop interval initState events)).total_written) ∧
      (outcomeState (streamLoop interval initState events)).reports.length =
        (outcomeState (streamLoop interval initState events)).total_written / interval ∧
      (∀ total last : Nat, last ≤ total →
        ∀ r ∈ (progressAdvance interval total last).1, last < r ∧ r ≤ total) := by
  have hOK := stOK_streamLoop interval hi events initState (stOK_init interval hi)
  set st := outcomeState (streamLoop interval initState events) with hst
  obtain ⟨h1, h2, h3, h4, h5⟩ := hOK
  have hcount := stOK_report_count interval st hi ⟨h1, h2, h3, h4, h5⟩
  refine ⟨?_, ?_, ?_, hcount, ?_⟩
  · rw [← hcount]; exact h2
  · rw [h2]
    refine List.Pairwise.chain' ?_
    refine List.Pairwise.map _ ?_ (List.pairwise_lt_range _)
    intro a b hab
    exact Nat.mul_lt_mul_of_le_of_lt (le_refl interval) (by omega) hi
  · intro r hr
    rw [h2] at hr
    simp only [List.mem_map, List.mem_range] at hr
    obtain ⟨j, hj, rfl⟩ := hr
    refine ⟨by positivity, Nat.mul_mod_right _ _, ?_⟩
    have hmono : interval * (j + 1) ≤ interval * st.reports.length :=
      Nat.mul_le_mul_left _ (by omega)
    exact le_trans hmono (h1 ▸ h3)
  · intro total last hle r hr
    exact progressAdvance_mem interval total last r hi hr

/-- Witness for C7 at interval 3 with a stream writing 11 bytes
(reports 3, 6, 9). -/
theorem c7_progress_reports_witness :
    0 < 3 ∧
    ((outcomeState (streamLoop 3 initState
        [(false, ReadEvent.data (streamOf [(false, [1, 2, 3, 4, 5]), (true, [6, 7])]))])).reports =
        (List.range ((outcomeState (streamLoop 3 initState
          [(false, ReadEvent.data (streamOf [(false, [1, 2, 3, 4, 5]), (true, [6, 7])]))])).total_written /
            3)).map (fun j => 3 * (j + 1)) ∧
      List.Chain' (· < ·) (outcomeState (streamLoop 3 initState
        [(false, ReadEvent.data (streamOf [(false, [1, 2, 3, 4, 5]), (true, [6, 7])]))])).reports ∧
      (∀ r ∈ (outcomeState (streamLoop 3 initState
          [(false, ReadEvent.data (streamOf [(false, [1, 2, 3, 4, 5]), (true, [6, 7])]))])).reports,
        0 < r ∧ r % 3 = 0 ∧
          r ≤ (outcomeState (streamLoop 3 initState
            [(false, ReadEvent.data (streamOf [(false, [1, 2, 3, 4, 5]), (true, [6, 7])]))])).total_written) ∧
      (outcomeState (streamLoop 3 initState
          [(false, ReadEvent.data (streamOf [(false, [1, 2, 3, 4, 5]), (true, [6, 7])]))])).reports.length =
        (outcomeState (streamLoop 3 initState
          [(false, ReadEvent.data (streamOf [(false, [1, 2, 3, 4, 5]), (true, [6, 7])]))])).total_written / 3 ∧
      (∀ total last : Nat, last ≤ total →
        ∀ r ∈ (progressAdvance 3 total last).1, last < r ∧ r ≤ total)) :=
  ⟨by decide, c7_progress_reports 3
    [(false, ReadEvent.data (streamOf [(false, [1, 2, 3, 4, 5]), (true, [6, 7])]))] (by decide)⟩

/-!
## One-iteration reduction lemmas for the streaming loop
-/

theorem streamLoop_cancel (interval : Nat) (st : StreamState) (ev : ReadEvent)
    (rest : List (Bool × ReadEvent)) :
    streamLoop interval st ((true, ev) :: rest) = StreamOutcome.cancelled st := by
  cases ev <;> rfl

theorem streamLoop_ioError (interval : Nat) (st : StreamState)
    (rest : List (Bool × ReadEvent)) :
    streamLoop interval st ((false, ReadEvent.ioError) :: rest) =
      StreamOutcome.ioFailed st := by
  rw [streamLoop]
  simp

theorem streamLoop_data (interval : Nat) (st : StreamState) (c : List Nat)
    (rest : List (Bool × ReadEvent)) :
    streamLoop interval st ((false, ReadEvent.data c) :: rest) =
      (if containsSeq EOT_MARKER (stepChunk interval st c).buffer then
        StreamOutcome.finished (stepChunk interval st c)
      else streamLoop interval (stepChunk interval st c) rest) := by
  rfl

theorem streamLoop_timeout (interval : Nat) (st : StreamState)
    (rest : List (Bool × ReadEvent)) :
    streamLoop interval st ((false, ReadEvent.timeout) :: rest) =
      (if containsSeq EOT_MARKER (stepChunk interval st []).buffer then
        StreamOutcome.finished (stepChunk interval st [])
      else streamLoop interval (stepChunk interval st []) rest) := by
  rfl

/-!
## Claim C6
-/

/-- C6: in the streaming loop a timed-out read behaves exactly like an empty
chunk (the loop continues); a cancellation observed at the top of an
iteration aborts with the cancelled outcome; an uncaught I/O error aborts
with the I/O failure outcome; and an iteration that consumes a data chunk
(including the zero-length chunk of a closed connection) terminates the loop
successfully exactly when the end-of-transfer marker is present in the
drained buffer. -/
theorem c6_stream_errors (interval : Nat) (st : StreamState) (c : List Nat)
    (ev : ReadEvent) (rest : List (Bool × ReadEvent)) :
    streamLoop interval st ((false, ReadEvent.timeout) :: rest) =
        streamLoop interval st ((false, ReadEvent.data []) :: rest) ∧
      streamLoop interval st ((true, ev) :: rest) = StreamOutcome.cancelled st ∧
      streamLoop interval st ((false, ReadEvent.ioError) :: rest) =
        StreamOutcome.ioFailed st ∧
      streamLoop interval st ((false, ReadEvent.data c) :: rest) =
        (if containsSeq EOT_MARKER (stepChunk interval st c).buffer then
          StreamOutcome.finished (stepChunk interval st c)
        else streamLoop interval (stepChunk interval st c) rest) :=
  ⟨by rw [streamLoop_timeout, streamLoop_data],
   streamLoop_cancel interval st ev rest,
   streamLoop_ioError interval st rest,
   streamLoop_data interval st c rest⟩

/-!
## Claim C2
-/

/-- C2 counterexample: at the spec's literal input
`\x05\x02Dhello\r`, then `\x05\x02Eworld\r`, then the end-of-transfer
marker, the loop decodes only the first record (the second starts with
`\x05\x02E`, which `DATA_REC_REGEX` does not match), so the output is
`hello\r\n` (7 bytes), not `hello\r\nworld\r\n` with `total_written = 12`. -/
theorem c2_counterexample :
    (outcomeState (streamLoop DEFAULT_PROGRESS_INTERVAL initState
        [(false, ReadEvent.data [5, 2, 68, 104, 101, 108, 108, 111, 13]),
         (false, ReadEvent.data [5, 2, 69, 119, 111, 114, 108, 100, 13]),
         (false, ReadEvent.data EOT_MARKER)])).output =
      [104, 101, 108, 108, 111, 13, 10] ∧
    (outcomeState (streamLoop DEFAULT_PROGRESS_INTERVAL initState
        [(false, ReadEvent.data [5, 2, 68, 104, 101, 108, 108, 111, 13]),
         (false, ReadEvent.data [5, 2, 69, 119, 111, 114, 108, 100, 13]),
         (false, ReadEvent.data EOT_MARKER)])).total_written = 7 ∧
    ¬ ((outcomeState (streamLoop DEFAULT_PROGRESS_INTERVAL initState
        [(false, ReadEvent.data [5, 2, 68, 104, 101, 108, 108, 111, 13]),
         (false, ReadEvent.data [5, 2, 69, 119, 111, 114, 108, 100, 13]),
         (false, ReadEvent.data EOT_MARKER)])).output =
      [104, 101, 108, 108, 111, 13, 10, 119, 111, 114, 108, 100, 13, 10] ∧
      (outcomeState (streamLoop DEFAULT_PROGRESS_INTERVAL initState
        [(false, ReadEvent.data [5, 2, 68, 104, 101, 108, 108, 111, 13]),
         (false, ReadEvent.data [5, 2, 69, 119, 111, 114, 108, 100, 13]),
         (false, ReadEvent.data EOT_MARKER)])).total_written = 12) := by
  decide

/-- C2 amended: at that literal input the run loop terminates successfully
having written exactly `hello\r\n` with `total_written = 7`; the
`\x05\x02Eworld\r` bytes stay in the buffer, where the embedded
`\x05\x02E\x17` end marker ends the loop. -/
theorem c2_amended :
    streamLoop DEFAULT_PROGRESS_INTERVAL initState
        [(false, ReadEvent.data [5, 2, 68, 104, 101, 108, 108, 111, 13]),
         (false, ReadEvent.data [5, 2, 69, 119, 111, 114, 108, 100, 13]),
         (false, ReadEvent.data EOT_MARKER)] =
      StreamOutcome.finished
        ⟨[5, 2, 69, 119, 111, 114, 108, 100, 13, 5, 2, 69, 23],
         [104, 101, 108, 108, 111, 13, 10], 7, 0, []⟩ := by
  decide

/-!
## Claim C3
-/

theorem encodeAll_append (xs ys : List (Bool × List Nat)) :
    encodeAll (xs ++ ys) = encodeAll xs ++ encodeAll ys := by
  simp [encodeAll]

theorem decodeAll_append (xs ys : List (Bool × List Nat)) :
    decodeAll (xs ++ ys) = decodeAll xs ++ decodeAll ys := by
  simp [decodeAll]

theorem recsOk_append {xs ys : List (Bool × List Nat)}
    (h : recsOk (xs ++ ys) = true) : recsOk xs = true ∧ recsOk ys = true := by
  simp [recsOk, List.all_append] at h ⊢
  exact h

/-- Any prefix of a well-formed stream splits as some fully delivered records
followed by a CR-free partial fragment. -/
theorem streamOf_take_decomp :
    ∀ (recs : List (Bool × List Nat)), recsOk recs = true → ∀ i : Nat,
      ∃ (done rest : List (Bool × List Nat)) (β : List Nat),
        recs = done ++ rest ∧ (streamOf recs).take i = encodeAll done ++ β ∧
        ∀ b ∈ β, b ≠ 13 := by
  intro recs
  induction recs with
  | nil =>
    intro hok i
    refine ⟨[], [], (streamOf []).take i, rfl, by simp [encodeAll], ?_⟩
    intro b hb
    have hmem : b ∈ streamOf [] := List.mem_of_mem_take hb
    simp [streamOf, encodeAll, EOT_MARKER] at hmem
    rcases hmem with h | h | h | h <;> omega
  | cons r rs ih =>
    intro hok i
    have hr : payloadOk r.2 = true := by
      simp [recsOk, List.all_cons] at hok
      exact hok.1
    have hrs : recsOk rs = true := by
      simp [recsOk, List.all_cons] at hok
      simpa [recsOk] using hok.2
    have hS : streamOf (r :: rs) = encodeRec r ++ streamOf rs := by
      simp [streamOf, encodeAll]
    by_cases hcase : i < (encodeRec r).length
    · refine ⟨[], r :: rs, (streamOf (r :: rs)).take i, rfl, by simp [encodeAll], ?_⟩
      have hsplit : (streamOf (r :: rs)).take i = (encodeRec r).take i := by
        rw [hS, List.take_append_of_le_length (by omega)]
      intro b hb hb13
      rw [hsplit] at hb
      exact encodeRec_no_cr_take r hr i hcase (hb13 ▸ hb)
    · obtain ⟨done, rest, β, hdec, htake, hβ⟩ := ih hrs (i - (encodeRec r).length)
      refine ⟨r :: done, rest, β, by rw [List.cons_append, ← hdec], ?_, hβ⟩
      rw [hS, List.take_append_eq_append_take,
        List.take_of_length_le (by omega), htake]
      simp [encodeAll]

/-- Applying `stepChunk` to a state whose buffer, extended by the incoming chunk,
holds well-formed records followed by a CR-free tail. -/
theorem stepChunk_wf (interval : Nat) (recs : List (Bool × List Nat))
    (tail : List Nat) (st : StreamState) (c : List Nat)
    (hok : recsOk recs = true) (htail : ∀ b ∈ tail, b ≠ 13)
    (hbc : st.buffer ++ c = encodeAll recs ++ tail) :
    stepChunk interval st c =
      ⟨tail, st.output ++ decodeAll recs,
       (foldRecs interval (recs.map decodeRec)
         (st.total_written, st.last_report, st.reports)).1,
       (foldRecs interval (recs.map decodeRec)
         (st.total_written, st.last_report, st.reports)).2.1,
       (foldRecs interval (recs.map decodeRec)
         (st.total_written, st.last_report, st.reports)).2.2⟩ := by
  obtain ⟨b0, o0, t0, l0, r0⟩ := st
  simp only at hbc
  unfold stepChunk drainBuffer
  dsimp only
  rw [hbc]
  exact drainGo_wellformed interval recs tail o0 t0 l0 r0 _ hok htail le_rfl

/-- The whole stream delivered as the next single chunk finishes the loop
with everything decoded (whatever reads were scheduled afterwards). -/
theorem streamLoop_whole_finish (interval : Nat) (recs : List (Bool × List Nat))
    (hok : recsOk recs = true) (rest : List (Bool × ReadEvent)) :
    streamLoop interval initState ((false, ReadEvent.data (streamOf recs)) :: rest) =
      StreamOutcome.finished
        ⟨EOT_MARKER, decodeAll recs,
         (foldRecs interval (recs.map decodeRec) (0, 0, [])).1,
         (foldRecs interval (recs.map decodeRec) (0, 0, [])).2.1,
         (foldRecs interval (recs.map decodeRec) (0, 0, [])).2.2⟩ := by
  rw [streamLoop_data, stepChunk_wellformed interval recs hok]
  simp [show containsSeq EOT_MARKER EOT_MARKER = true from by decide]

/-- C3 amended: fragmentation independence holds provided the
end-of-transfer byte sequence does not occur in any proper prefix of the
stream (in particular, not inside a record payload): splitting the stream
into two deliveries at any point yields the same outcome, hence an
identical output artifact, as delivering it whole. -/
theorem c3_amended_fragmentation (interval : Nat) (recs : List (Bool × List Nat))
    (hok : recsOk recs = true)
    (hno : ∀ i, i < (streamOf recs).length →
      containsSeq EOT_MARKER ((streamOf recs).take i) = false)
    (i : Nat) :
    streamLoop interval initState
        [(false, ReadEvent.data ((streamOf recs).take i)),
         (false, ReadEvent.data ((streamOf recs).drop i))] =
      streamLoop interval initState [(false, ReadEvent.data (streamOf recs))] := by
  by_cases hlen : (streamOf recs).length ≤ i
  · rw [List.take_of_length_le hlen, List.drop_eq_nil_of_le hlen,
      streamLoop_whole_finish interval recs hok,
      streamLoop_whole_finish interval recs hok]
  · push_neg at hlen
    obtain ⟨done, rest, β, hdec, htake, hβ⟩ := streamOf_take_decomp recs hok i
    have hok2 := recsOk_append (hdec ▸ hok)
    have hst1 : stepChunk interval initState ((streamOf recs).take i) =
        ⟨β, decodeAll done,
         (foldRecs interval (done.map decodeRec) (0, 0, [])).1,
         (foldRecs interval (done.map decodeRec) (0, 0, [])).2.1,
         (foldRecs interval (done.map decodeRec) (0, 0, [])).2.2⟩ := by
      have h := stepChunk_wf interval done β initState ((streamOf recs).take i)
        hok2.1 hβ (by simpa [initState] using htake)
      simpa [initState] using h
    have hfalse : containsSeq EOT_MARKER β = false := by
      cases hx : containsSeq EOT_MARKER β with
      | false => rfl
      | true =>
        have htrue := containsSeq_append_left EOT_MARKER (encodeAll done) β hx
        rw [← htake] at htrue
        rw [hno i hlen] at htrue
        cases htrue
    have hS2 : β ++ (streamOf recs).drop i = encodeAll rest ++ EOT_MARKER := by
      have hfull : encodeAll done ++ (β ++ (streamOf recs).drop i) =
          encodeAll done ++ (encodeAll rest ++ EOT_MARKER) := by
        rw [← List.append_assoc, ← htake, List.take_append_drop, hdec]
        simp [streamOf, encodeAll_append, List.append_assoc]
      exact List.append_cancel_left hfull
    have hst2 : stepChunk interval
        (⟨β, decodeAll done,
          (foldRecs interval (done.map decodeRec) (0, 0, [])).1,
          (foldRecs interval (done.map decodeRec) (0, 0, [])).2.1,
          (foldRecs interval (done.map decodeRec) (0, 0, [])).2.2⟩ : StreamState)
        ((streamOf recs).drop i) =
        ⟨EOT_MARKER, decodeAll done ++ decodeAll rest,
         (foldRecs interval (rest.map decodeRec)
           (foldRecs interval (done.map decodeRec) (0, 0, []))).1,
         (foldRecs interval (rest.map decodeRec)
           (foldRecs interval (done.map decodeRec) (0, 0, []))).2.1,
         (foldRecs interval (rest.map decodeRec)
           (foldRecs interval (done.map decodeRec) (0, 0, []))).2.2⟩ := by
      have h := stepChunk_wf interval rest EOT_MARKER
        (⟨β, decodeAll done,
          (foldRecs interval (done.map decodeRec) (0, 0, [])).1,
          (foldRecs interval (done.map decodeRec) (0, 0, [])).2.1,
          (foldRecs interval (done.map decodeRec) (0, 0, [])).2.2⟩ : StreamState)
        ((streamOf recs).drop i) hok2.2 (by decide) hS2
      simpa using h
    rw [streamLoop_data, hst1]
    simp only [hfalse]
    rw [if_neg (by simp [hfalse])]
    rw [streamLoop_data, hst2]
    dsimp only
    rw [if_pos (show containsSeq EOT_MARKER EOT_MARKER = true from by decide)]
    rw [streamLoop_whole_finish interval recs hok]
    rw [hdec, decodeAll_append]
    simp [List.map_append, foldRecs_append]

/-- Witness for the amended C3 at a concrete record stream, split inside the
record. -/
theorem c3_amended_fragmentation_witness :
    recsOk [(false, [104, 105])] = true ∧
    (∀ i, i < (streamOf [(false, [104, 105])]).length →
      containsSeq EOT_MARKER ((streamOf [(false, [104, 105])]).take i) = false) ∧
    streamLoop 7 initState
        [(false, ReadEvent.data ((streamOf [(false, [104, 105])]).take 3)),
         (false, ReadEvent.data ((streamOf [(false, [104, 105])]).drop 3))] =
      streamLoop 7 initState [(false, ReadEvent.data (streamOf [(false, [104, 105])]))] :=
  ⟨by decide, by decide, c3_amended_fragmentation 7 [(false, [104, 105])]
    (by decide) (by decide) 3⟩

/-- C3 counterexample: the stream holding the single well-formed record
`\x05\x02D` + payload `\x05\x02E\x17` + CR, followed by the end marker.
Delivered whole it decodes the record (6 output bytes); split after byte 7
the payload's embedded end-marker bytes end the loop before the record
completes, yielding an empty output artifact. -/
theorem c3_counterexample :
    recsOk [(false, [5, 2, 69, 23])] = true ∧
    (outcomeState (streamLoop DEFAULT_PROGRESS_INTERVAL initState
        [(false, ReadEvent.data ((streamOf [(false, [5, 2, 69, 23])]).take 7)),
         (false, ReadEvent.data ((streamOf [(false, [5, 2, 69, 23])]).drop 7))])).output = [] ∧
    (outcomeState (streamLoop DEFAULT_PROGRESS_INTERVAL initState
        [(false, ReadEvent.data (streamOf [(false, [5, 2, 69, 23])]))])).output =
      [5, 2, 69, 23, 13, 10] ∧
    ([] : List Nat) ≠ [5, 2, 69, 23, 13, 10] := by
  decide

/-!
## Claim C4
-/

/-- C4: whenever the header-or-busy wait returns a buffer containing the
device-busy marker — in particular whenever the busy marker was observed
before the header marker — the session aborts with the device-busy failure
and no byte is ever written to the output artifact. -/
theorem c4_device_busy (interval : Nat) (s : List Nat) (inp : SessionInput)
    (b1 b2 bh : List Nat)
    (h1 : recvUntil loginFound [] inp.loginEvents = RecvOutcome.ok b1)
    (h2 : recvUntil hasAux [] inp.auxEvents = RecvOutcome.ok b2)
    (h3 : recvUntil (combinedFound s) [] inp.headerEvents = RecvOutcome.ok bh)
    (h4 : containsSeq busyBytes bh = true) :
    runSession interval s inp = (SessionResult.deviceBusy, []) := by
  unfold runSession
  rw [h1, h2, h3]
  simp [h4]

/-- Witness for C4: the busy text arrives in the header wait. -/
theorem c4_device_busy_witness :
    recvUntil loginFound [] [ReadEvent.data loginBytes] = RecvOutcome.ok loginBytes ∧
    recvUntil hasAux [] [ReadEvent.data (strB "AUX1")] = RecvOutcome.ok (strB "AUX1") ∧
    recvUntil (combinedFound (strB "backup1")) [] [ReadEvent.data busyBytes] =
      RecvOutcome.ok busyBytes ∧
    containsSeq busyBytes busyBytes = true ∧
    runSession DEFAULT_PROGRESS_INTERVAL (strB "backup1")
        ⟨[ReadEvent.data loginBytes], [ReadEvent.data (strB "AUX1")],
         [ReadEvent.data busyBytes], []⟩ =
      (SessionResult.deviceBusy, []) :=
  ⟨by decide, by decide, by decide, by decide,
   c4_device_busy DEFAULT_PROGRESS_INTERVAL (strB "backup1")
     ⟨[ReadEvent.data loginBytes], [ReadEvent.data (strB "AUX1")],
      [ReadEvent.data busyBytes], []⟩ loginBytes (strB "AUX1") busyBytes
     (by decide) (by decide) (by decide) (by decide)⟩

/-!
## Claim C5
-/

/-- C5 counterexample: a handshake wait whose marker never arrives need not
fail with a timeout at any deadline: if the connection closes (an empty
read), `_recv_until` returns its buffer without the marker and without
raising, so no absolute deadline enforces the marker's arrival. -/
theorem c5_counterexample :
    loginFound [] = false ∧
    recvUntil loginFound [] [ReadEvent.data []] = RecvOutcome.ok [] ∧
    RecvOutcome.ok ([] : List Nat) ≠ RecvOutcome.timedOut [] := by
  decide

/-- C5 amended: when a transport read during a handshake wait times out
before the marker has appeared, the wait raises the timeout (it is not
converted into an empty read); the failure aborts the whole session with an
empty output artifact and no retry, at each of the three wait steps.  (The
per-read timeout is not an absolute deadline: a closed connection can end
the wait without the marker and without failure.) -/
theorem c5_amended_handshake_timeout (found : List Nat → Bool) (buf : List Nat)
    (rest : List ReadEvent) (interval : Nat) (s : List Nat) (inp : SessionInput)
    (b b1 b2 : List Nat) :
    (found buf = false →
      recvUntil found buf (ReadEvent.timeout :: rest) = RecvOutcome.timedOut buf) ∧
    (recvUntil loginFound [] inp.loginEvents = RecvOutcome.timedOut b →
      runSession interval s inp = (SessionResult.handshakeTimeout 1, [])) ∧
    (recvUntil loginFound [] inp.loginEvents = RecvOutcome.ok b1 →
      recvUntil hasAux [] inp.auxEvents = RecvOutcome.timedOut b →
      runSession interval s inp = (SessionResult.handshakeTimeout 2, [])) ∧
    (recvUntil loginFound [] inp.loginEvents = RecvOutcome.ok b1 →
      recvUntil hasAux [] inp.auxEvents = RecvOutcome.ok b2 →
      recvUntil (combinedFound s) [] inp.headerEvents = RecvOutcome.timedOut b →
      runSession interval s inp = (SessionResult.handshakeTimeout 3, [])) := by
  refine ⟨?_, ?_, ?_, ?_⟩
  · intro h
    rw [recvUntil]
    simp [h]
  · intro h
    unfold runSession
    rw [h]
  · intro ha hb
    unfold runSession
    rw [ha, hb]
  · intro ha hb hc
    unfold runSession
    rw [ha, hb, hc]

/-- Witness for the amended C5: a timeout during the login wait. -/
theorem c5_amended_handshake_timeout_witness :
    loginFound [] = false ∧
    recvUntil loginFound [] [ReadEvent.timeout] = RecvOutcome.timedOut [] ∧
    runSession 5 (strB "b") ⟨[ReadEvent.timeout], [], [], []⟩ =
      (SessionResult.handshakeTimeout 1, []) :=
  ⟨by decide,
   (c5_amended_handshake_timeout loginFound [] [] 5 (strB "b")
     ⟨[ReadEvent.timeout], [], [], []⟩ [] [] []).1 (by decide),
   (c5_amended_handshake_timeout loginFound [] [] 5 (strB "b")
     ⟨[ReadEvent.timeout], [], [], []⟩ [] [] []).2.1 (by decide)⟩

/-!
## Claim C10
-/

/-- C10: a zero-length read (closed connection) during a handshake wait makes
`_recv_until` return the accumulated buffer even though the marker is absent,
raising nothing; the engine then proceeds to the next phase exactly as if the
marker had arrived. -/
theorem c10_closed_wait_proceeds (found : List Nat → Bool) (buf : List Nat)
    (rest : List ReadEvent) (interval : Nat) (s : List Nat)
    (ae he : List ReadEvent) (se : List (Bool × ReadEvent)) :
    (found buf = false →
      recvUntil found buf (ReadEvent.data [] :: rest) = RecvOutcome.ok buf) ∧
    runSession interval s ⟨[ReadEvent.data []], ae, he, se⟩ =
      runSession interval s ⟨[ReadEvent.data loginBytes], ae, he, se⟩ := by
  constructor
  · intro h
    rw [recvUntil]
    simp [h]
  · have h1 : recvUntil loginFound [] [ReadEvent.data []] = RecvOutcome.ok [] := by
      decide
    have h2 : recvUntil loginFound [] [ReadEvent.data loginBytes] =
        RecvOutcome.ok loginBytes := by decide
    unfold runSession
    rw [h1, h2]

/-- Witness for C10: the login wait ends by a closed connection with the
marker absent, and the session still reaches the AUX phase. -/
theorem c10_closed_wait_proceeds_witness :
    loginFound (strB "abc") = false ∧
    recvUntil loginFound (strB "abc") [ReadEvent.data []] =
      RecvOutcome.ok (strB "abc") ∧
    runSession 5 (strB "b") ⟨[ReadEvent.data []], [ReadEvent.timeout], [], []⟩ =
      runSession 5 (strB "b")
        ⟨[ReadEvent.data loginBytes], [ReadEvent.timeout], [], []⟩ :=
  ⟨by decide,
   (c10_closed_wait_proceeds loginFound (strB "abc") [] 5 (strB "b")
     [ReadEvent.timeout] [] []).1 (by decide),
   (c10_closed_wait_proceeds loginFound (strB "abc") [] 5 (strB "b")
     [ReadEvent.timeout] [] []).2⟩

/-!
## Claim C8
-/

theorem connectGo_len (ok : Nat → Bool) (retries : Nat) :
    ∀ fuel attempt, (connectGo ok retries fuel attempt).attempts.length ≤ fuel := by
  intro fuel
  induction fuel with
  | zero => intro attempt; simp [connectGo]
  | succ fuel ih =>
    intro attempt
    rw [connectGo]
    by_cases h1 : ok attempt = true
    · simp [h1]
    · by_cases h2 : attempt < retries
      · have := ih (attempt + 1)
        simp [h1, h2]
        omega
      · simp [h1, h2]

theorem connectGo_attempts (ok : Nat → Bool) (retries : Nat) :
    ∀ fuel attempt, (connectGo ok retries fuel attempt).attempts =
      List.range' attempt (connectGo ok retries fuel attempt).attempts.length := by
  intro fuel
  induction fuel with
  | zero => intro attempt; simp [connectGo]
  | succ fuel ih =>
    intro attempt
    rw [connectGo]
    by_cases h1 : ok attempt = true
    · rw [if_pos h1]
      simp [List.range'_succ]
    · rw [if_neg h1]
      by_cases h2 : attempt < retries
      · rw [if_pos h2]
        have hih := ih (attempt + 1)
        dsimp only
        rw [List.length_cons, List.range'_succ, ← hih]
      · rw [if_neg h2]
        simp [List.range'_succ]

theorem connectGo_connected (ok : Nat → Bool) (retries : Nat) :
    ∀ fuel attempt k,
      (connectGo ok retries fuel attempt).result = ConnectResult.connected k →
      attempt ≤ k ∧ (connectGo ok retries fuel attempt).retryNotices = k - attempt := by
  intro fuel
  induction fuel with
  | zero =>
    intro attempt k h
    rw [connectGo] at h
    cases h
  | succ fuel ih =>
    intro attempt k h
    rw [connectGo] at h ⊢
    by_cases h1 : ok attempt = true
    · simp [h1] at h ⊢
      omega
    · by_cases h2 : attempt < retries
      · simp only [h1, if_false, h2, if_true] at h ⊢
        obtain ⟨hk, hr⟩ := ih (attempt + 1) k h
        constructor
        · omega
        · simp [hr]
          omega
      · simp [h1, h2] at h
  
theorem connectGo_all_fail (ok : Nat → Bool) (retries : Nat)
    (hfail : ∀ i, ok i = false) :
    ∀ fuel attempt, 1 ≤ attempt → attempt ≤ retries → fuel + attempt = retries + 1 →
      connectGo ok retries fuel attempt =
        ⟨ConnectResult.failed retries, List.range' attempt fuel, retries - attempt⟩ := by
  intro fuel
  induction fuel with
  | zero => intro attempt h1 h2 h3; omega
  | succ fuel ih =>
    intro attempt h1 h2 h3
    rw [connectGo, hfail attempt]
    by_cases h4 : attempt < retries
    · simp only [Bool.false_eq_true, if_false, h4, if_true]
      rw [ih (attempt + 1) (by omega) (by omega) (by omega)]
      rw [List.range'_succ]
      simp
      omega
    · have ha : attempt = retries := by omega
      have hf : fuel = 0 := by omega
      subst ha hf
      simp [h4, List.range'_succ]

/-- C8: the connect loop makes at most `connect_retries` attempts, announces
every attempt (including the first) with its attempt number in order, emits a
retry notice after each failed attempt except the last, propagates the final
failure after exactly `connect_retries` attempts when every attempt fails,
and in the concrete scenario "fails twice then succeeds with
`connect_retries = 3`" emits exactly two retry notices and connects. -/
theorem c8_connect_retries :
    (∀ (ok : Nat → Bool) (retries : Nat),
      (connectRun ok retries).attempts.length ≤ retries) ∧
    (∀ (ok : Nat → Bool) (retries : Nat),
      (connectRun ok retries).attempts =
        List.range' 1 (connectRun ok retries).attempts.length) ∧
    (∀ (ok : Nat → Bool) (retries k : Nat),
      (connectRun ok retries).result = ConnectResult.connected k →
      (connectRun ok retries).retryNotices = k - 1) ∧
    (∀ (ok : Nat → Bool) (retries : Nat), 1 ≤ retries → (∀ i, ok i = false) →
      connectRun ok retries =
        ⟨ConnectResult.failed retries, List.range' 1 retries, retries - 1⟩) ∧
    connectRun (fun i => decide (3 ≤ i)) 3 =
      ⟨ConnectResult.connected 3, [1, 2, 3], 2⟩ := by
  refine ⟨?_, ?_, ?_, ?_, by decide⟩
  · intro ok retries
    exact connectGo_len ok retries retries 1
  · intro ok retries
    exact connectGo_attempts ok retries retries 1
  · intro ok retries k h
    exact (connectGo_connected ok retries retries 1 k h).2
  · intro ok retries h1 hf
    exact connectGo_all_fail ok retries hf retries 1 le_rfl h1 (by omega)

/-- Witness for C8: two attempts, both failing. -/
theorem c8_connect_retries_witness :
    (1 ≤ 2) ∧ connectRun (fun _ => false) 2 =
      ⟨ConnectResult.failed 2, [1, 2], 1⟩ :=
  ⟨by decide,
   c8_connect_retries.2.2.2.1 (fun _ => false) 2 (by decide) (fun _ => rfl)⟩

/-!
## Claim C9
-/

/-- C9 counterexample: the command bytes are not `SAVE<CRLF>` followed by a
space, the sanitized base name and a final CRLF — there is no CRLF after the
`SAVE` word. -/
theorem c9_counterexample :
    cmdBytes false (sanitize (strB "backup1")) ≠
      strB "SAVE" ++ [13, 10] ++ [32] ++ sanitize (strB "backup1") ++ [13, 10] := by
  decide

/-- C9 amended: the command bytes sent on the wire are exactly `SAVE` or
`SAVE/Full` (selected by the full-mode flag), followed immediately by a
space, the sanitized base name and a single final CRLF. -/
theorem c9_amended_command_format (full : Bool) (name : List Nat) :
    cmdBytes full name =
      (if full then strB "SAVE/Full" else strB "SAVE") ++ [32] ++ name ++ [13, 10] := by
  cases full with
  | false => simp [cmdBytes]
  | true =>
    have h : strB "SAVE" ++ strB "/Full" = strB "SAVE/Full" := by decide
    simp only [cmdBytes, if_true]
    rw [← h]
